/-
Verification of the core of `package-omg.py`: the key-pair resolver
(`get_complementary_key_sha256_hash`), the chunked file hasher (`get_sha256`),
the header builder (`build_header`), the `length#bytes` framing of the header,
and the temp-file handoff tail of `__main`.

Shallow embedding conventions:
* A file is its raw byte content (`List Nat`); a directory listing is a
  `List FSFile`.
* `RSA.importKey` (together with `open`/`read` of the candidate file) is
  modelled by a parameter `importKey : List Nat → Option RSAKey`; `none`
  stands for any exception raised while reading or parsing the file.
  An `RSAKey` carries `has_private()` as a Bool and the public components
  (modulus and exponent material) as a single abstract `pub : Nat`;
  `publickey()` drops the private part, and `==` on key objects compares
  the remaining components structurally.
* The SHA-256 accumulator of `Crypto.Hash.SHA256` is modelled by the byte
  sequence fed to it so far: the digest of an incremental SHA-256 object is a
  pure function of the concatenation of all `update` arguments, so
  `hexdigest` is an abstract parameter `SHA256HEX : List Nat → String`
  applied to the accumulated bytes.
* Exceptions are `Except.error`; a Python function that may raise and
  otherwise returns `a` becomes `Except String a`.
-/
import Mathlib

namespace PackageOmg

/-- A regular file in a directory: its name and raw byte content. -/
structure FSFile where
  name : String
  content : List Nat
deriving DecidableEq, Repr

/-- RSA key material as produced by `RSA.importKey`: whether the key has a
private component, and its public components (abstracted to one number). -/
structure RSAKey where
  hasPrivate : Bool
  pub : Nat
deriving DecidableEq, Repr

/-- Model of `key.has_private()` of the pycrypto API. -/
def RSAKey.has_private (k : RSAKey) : Bool := k.hasPrivate

/-- Model of `key.publickey()` of the pycrypto API: the same key with the private
component stripped. -/
def RSAKey.publickey (k : RSAKey) : RSAKey := ⟨false, k.pub⟩

/-- Spec section 3: two keys are complementary iff exactly one has a private
component and their public components are bit-equal. -/
def complementary (a b : RSAKey) : Bool :=
  (a.hasPrivate != b.hasPrivate) && (a.pub == b.pub)

/-- Chunk size `CHUNK_SIZE = 16*1024` from `get_sha256`. -/
def CHUNK_SIZE : Nat := 16 * 1024

/-- The state of an incremental SHA-256 object: the bytes fed to it so far. -/
structure SHA256Acc where
  data : List Nat
deriving DecidableEq, Repr

/-- Model of `SHA256.new()`. -/
def SHA256new : SHA256Acc := ⟨[]⟩

/-- Model of `acc.update(chunk)`: feeds more bytes to the accumulator. -/
def SHA256Acc.update (a : SHA256Acc) (chunk : List Nat) : SHA256Acc :=
  ⟨a.data ++ chunk⟩

/-- Model of `acc.hexdigest()`: the hex digest, a pure function `SHA256HEX` of the
accumulated bytes. -/
def SHA256Acc.hexdigest (SHA256HEX : List Nat → String) (a : SHA256Acc) : String :=
  SHA256HEX a.data

/-- Fuel-indexed worker for `readChunks`; the fuel (initially the content
length) bounds the number of loop iterations, each of which consumes at least
one byte, so the `0, l` fallback is never reached from `readChunks`. -/
def readChunksGo : Nat → List Nat → List (List Nat)
  | _, [] => []
  | 0, l => [l]
  | fuel + 1, l => l.take CHUNK_SIZE :: readChunksGo fuel (l.drop CHUNK_SIZE)

/-- The successive chunks returned by `infile.read(CHUNK_SIZE)` until the
empty read: the file content cut into pieces of at most `CHUNK_SIZE` bytes.
`readChunks_eq` below shows this satisfies the recurrence of the source's
`while True` read loop. -/
def readChunks (l : List Nat) : List (List Nat) :=
  readChunksGo l.length l

/-- Model of `get_sha256(in_filename)`: streams the file through a SHA-256 accumulator
in `CHUNK_SIZE` chunks and returns the accumulator. -/
def get_sha256 (content : List Nat) : SHA256Acc :=
  (readChunks content).foldl SHA256Acc.update SHA256new

/-- The match condition tested by the `for` loop of
`get_complementary_key_sha256_hash` (the `if`/`elif` pair, which share the
`publickey()` comparison). -/
def candidateMatches (rsaKeyInfo rsakey : RSAKey) : Bool :=
  (rsaKeyInfo.has_private && !rsakey.has_private
      && decide (rsaKeyInfo.publickey = rsakey.publickey))
    || (!rsaKeyInfo.has_private && rsakey.has_private
      && decide (rsaKeyInfo.publickey = rsakey.publickey))

/-- The candidate scan loop of `get_complementary_key_sha256_hash`: for each
candidate file, try to load it as an RSA key (a load failure is caught and the
candidate silently skipped), hash it, and return the hex digest on the first
complementary match; `none` after the whole list. -/
def scanCandidates (importKey : List Nat → Option RSAKey)
    (SHA256HEX : List Nat → String) (rsaKeyInfo : RSAKey) :
    List FSFile → Option String
  | [] => none
  | kf :: rest =>
    match importKey kf.content with
    | none => scanCandidates importKey SHA256HEX rsaKeyInfo rest
    | some rsakey =>
      let sha256 := get_sha256 kf.content
      if rsaKeyInfo.has_private && !rsakey.has_private
          && decide (rsaKeyInfo.publickey = rsakey.publickey) then
        some (sha256.hexdigest SHA256HEX)
      else if !rsaKeyInfo.has_private && rsakey.has_private
          && decide (rsaKeyInfo.publickey = rsakey.publickey) then
        some (sha256.hexdigest SHA256HEX)
      else scanCandidates importKey SHA256HEX rsaKeyInfo rest

/-- Model of `get_complementary_key_sha256_hash(keyFile)`: loads the input key (an
unreadable or unparseable input raises, i.e. `Except.error`), then scans the
directory listing `keyFiles` for the complementary key and returns its hex
digest, or `none` when no candidate matches. -/
def get_complementary_key_sha256_hash (importKey : List Nat → Option RSAKey)
    (SHA256HEX : List Nat → String) (keyFiles : List FSFile)
    (keyContent : List Nat) : Except String (Option String) :=
  match importKey keyContent with
  | none => Except.error "Could not read in rsa key"
  | some rsaKeyInfo =>
    Except.ok (scanCandidates importKey SHA256HEX rsaKeyInfo keyFiles)

/-- A JSON value as produced by `json.loads`. -/
inductive JValue where
  | null
  | bool (b : Bool)
  | num (n : Int)
  | str (s : String)
  | arr (xs : List JValue)
  | obj (fields : List (String × JValue))
deriving Repr

/-- Python truthiness of a `json.loads` result: `None`, `False`, `0`, `""`,
`[]` and `{}` are falsy, everything else truthy. -/
def JValue.truthy : JValue → Bool
  | .null => false
  | .bool b => b
  | .num n => n != 0
  | .str s => !s.isEmpty
  | .arr xs => !xs.isEmpty
  | .obj fs => !fs.isEmpty

/-- Field lookup in a JSON object (first occurrence). -/
def lookupField : List (String × JValue) → String → Option JValue
  | [], _ => none
  | (k, v) :: t, key => if k = key then some v else lookupField t key

/-- Python dict assignment `d[key] = v` on the field list: replaces the value
under an existing key, otherwise appends the new binding. (A dict produced by
`json.loads` binds each key once, so replacing the first occurrence is exact.) -/
def setField : List (String × JValue) → String → JValue → List (String × JValue)
  | [], key, v => [(key, v)]
  | p :: t, key, v => if p.1 = key then (key, v) :: t else p :: setField t key v

/-- Python item assignment `header[key] = v`: only dicts support it; on any
other `json.loads` result it raises `TypeError`. -/
def JValue.setItem : JValue → String → JValue → Except String JValue
  | .obj fs, key, v => Except.ok (.obj (setField fs key v))
  | _, _, _ => Except.error "TypeError: object does not support item assignment"

/-- A resolver result stored into the header dict: a hex digest string, or
Python `None` (serialized as JSON `null`). -/
def optDigestToJValue : Option String → JValue
  | some d => .str d
  | none => .null

/-- Model of `build_header(romgHeaderFile, encryptionKey, signingKey)`.
`template` is the outcome of `open` + `json.loads` on the template file
(`Except.error` = missing, unreadable or invalid JSON). A truthy parse is
stamped with `encryptionKeyHash` then `signatureKeyHash` (each right-hand
resolver call runs before its assignment, and resolver errors propagate); a
falsy parse skips the `if` body and the function returns Python `None`
(modelled `Except.ok none`). -/
def build_header (importKey : List Nat → Option RSAKey)
    (SHA256HEX : List Nat → String) (template : Except String JValue)
    (encDir : List FSFile) (encKeyContent : List Nat)
    (sigDir : List FSFile) (sigKeyContent : List Nat) :
    Except String (Option JValue) := do
  let header ← template
  if header.truthy then do
    let encHash ← get_complementary_key_sha256_hash importKey SHA256HEX encDir encKeyContent
    let header ← header.setItem "encryptionKeyHash" (optDigestToJValue encHash)
    let sigHash ← get_complementary_key_sha256_hash importKey SHA256HEX sigDir sigKeyContent
    let header ← header.setItem "signatureKeyHash" (optDigestToJValue sigHash)
    pure (some header)
  else
    pure none

/-- The decimal ASCII bytes written by `'%d' % n` (`"0"` for zero, no sign,
most significant digit first). -/
def natToDecASCII (n : Nat) : List Nat :=
  if n = 0 then [48] else (Nat.digits 10 n).reverse.map (fun d => d + 48)

/-- Byte 35 is the ASCII code of the literal `#` delimiter. -/
def hashByte : Nat := 35

/-- Framing `headerStr = chr-length, hash sign, headerStr` from `__main`:
decimal ASCII length, a `#`, then the payload bytes. -/
def frameHeader (B : List Nat) : List Nat :=
  natToDecASCII B.length ++ hashByte :: B

/-- Split a byte string at the first `#`: the bytes before it and the bytes
after it; `none` when no `#` occurs. -/
def splitAtHash : List Nat → Option (List Nat × List Nat)
  | [] => none
  | b :: t =>
    if b = hashByte then some ([], t)
    else (splitAtHash t).map (fun pr => (b :: pr.1, pr.2))

/-- Decode decimal ASCII digits into the number they denote. -/
def decodeDecASCII (l : List Nat) : Nat :=
  l.foldl (fun a d => a * 10 + (d - 48)) 0

/-- The downstream parse of a framed header: split at the first `#`, read the
decimal length, then take exactly that many subsequent bytes (failing when
fewer are available). -/
def parseFrame (bytes : List Nat) : Option (List Nat) :=
  match splitAtHash bytes with
  | none => none
  | some (lenBytes, rest) =>
    let n := decodeDecASCII lenBytes
    if rest.length < n then none else some (rest.take n)

/-- The outcome of the `subprocess.Popen` / `communicate` / `wait` block of
`__main`: either the child process completes with some return code and
captured stdout, or launching/communicating raises an exception. -/
inductive EncOutcome where
  | completes (returncode : Int) (stdoutStr : Option String)
  | raises (msg : String)
deriving DecidableEq, Repr

/-- The externally visible operations of the tail of `__main` (lines
117-136), in program order. -/
inductive MainOp where
  | mkstempCreate
  | writeHeader
  | popenEncrypt
  | removeTmp
  | renameArtifact
  | sysExit (rc : Int)
  | uncaught (msg : String)
deriving DecidableEq, Repr

/-- The tail of `__main` after the header is framed: create the temp file,
write the framed header, run the encryptor, then `os.remove(tmpfname)`, the
conditional rename, and `sys.exit(p.returncode)`. There is no `try`/`finally`
around the subprocess block, so an exception raised there aborts the run
before the `os.remove` line is reached. -/
def mainTailTrace (outcome : EncOutcome) : List MainOp :=
  [.mkstempCreate, .writeHeader] ++
    match outcome with
    | .raises msg => [.uncaught msg]
    | .completes rc out =>
      [.popenEncrypt, .removeTmp] ++
        (if (rc == 0) && out.isSome then [.renameArtifact] else []) ++
        [.sysExit rc]

/-- A concrete `RSA.importKey` used to evaluate the model on explicit inputs:
content `[1]` is a private key and `[2]` a public key of the same pair
(public components both `7`), content `[3]` is an unrelated public key, and
every other content fails to parse. -/
def ikTest : List Nat → Option RSAKey := fun c =>
  if c = [1] then some ⟨true, 7⟩
  else if c = [2] then some ⟨false, 7⟩
  else if c = [3] then some ⟨false, 9⟩
  else none

/-- A concrete stand-in for the hex-digest function on explicit inputs. -/
def hexTest : List Nat → String := fun c => toString c

/-! ### Lemmas about the chunked hash accumulator -/

lemma readChunksGo_fuel (f1 : Nat) : ∀ (f2 : Nat) (l : List Nat),
    l.length ≤ f1 → l.length ≤ f2 → readChunksGo f1 l = readChunksGo f2 l := by
  induction f1 with
  | zero =>
    intro f2 l h1 _
    have : l = [] := List.length_eq_zero.mp (Nat.le_zero.mp h1)
    subst this
    cases f2 <;> rfl
  | succ f ih =>
    intro f2 l h1 h2
    cases l with
    | nil => cases f2 <;> rfl
    | cons a t =>
      cases f2 with
      | zero => simp at h2
      | succ g =>
        simp only [readChunksGo]
        rw [ih g ((a :: t).drop CHUNK_SIZE)]
        · simp only [List.length_drop, List.length_cons, CHUNK_SIZE] at *
          omega
        · simp only [List.length_drop, List.length_cons, CHUNK_SIZE] at *
          omega

/-- The defining recurrence of the source's chunked read loop. -/
lemma readChunks_eq (l : List Nat) :
    readChunks l
      = if l.isEmpty then []
        else l.take CHUNK_SIZE :: readChunks (l.drop CHUNK_SIZE) := by
  cases l with
  | nil => rfl
  | cons a t =>
    simp only [readChunks, List.length_cons, readChunksGo, List.isEmpty_cons,
      if_false, Bool.false_eq_true]
    rw [readChunksGo_fuel t.length ((a :: t).drop CHUNK_SIZE).length
      ((a :: t).drop CHUNK_SIZE)
      (by simp only [List.length_drop, List.length_cons, CHUNK_SIZE]; omega) le_rfl]

lemma foldl_update (cs : List (List Nat)) (a : SHA256Acc) :
    cs.foldl SHA256Acc.update a = ⟨a.data ++ cs.flatten⟩ := by
  induction cs generalizing a with
  | nil => cases a; simp
  | cons c t ih =>
    simp only [List.foldl_cons, ih, SHA256Acc.update, List.flatten_cons,
      List.append_assoc]

lemma readChunksGo_join (fuel : Nat) : ∀ l : List Nat,
    (readChunksGo fuel l).flatten = l := by
  induction fuel with
  | zero =>
    intro l
    cases l <;> simp [readChunksGo]
  | succ f ih =>
    intro l
    cases l with
    | nil => rfl
    | cons a t =>
      simp only [readChunksGo, List.flatten_cons, ih, List.take_append_drop]

lemma readChunks_join (l : List Nat) : (readChunks l).flatten = l :=
  readChunksGo_join l.length l

/-! ### Lemmas about the candidate scan -/

lemma publickey_eq_iff (a b : RSAKey) :
    a.publickey = b.publickey ↔ a.pub = b.pub := by
  simp [RSAKey.publickey, RSAKey.mk.injEq]

lemma candidateMatches_eq_complementary (a b : RSAKey) :
    candidateMatches a b = complementary a b := by
  rcases a with ⟨ap, apub⟩
  rcases b with ⟨bp, bpub⟩
  simp only [candidateMatches, complementary, RSAKey.has_private, publickey_eq_iff]
  cases ap <;> cases bp <;> by_cases h : apub = bpub <;> simp [h]

lemma scanCandidates_cons_skip (importKey : List Nat → Option RSAKey)
    (SHA256HEX : List Nat → String) (k : RSAKey) (kf : FSFile) (rest : List FSFile)
    (h : importKey kf.content = none) :
    scanCandidates importKey SHA256HEX k (kf :: rest)
      = scanCandidates importKey SHA256HEX k rest := by
  simp [scanCandidates, h]

lemma scanCandidates_cons_key (importKey : List Nat → Option RSAKey)
    (SHA256HEX : List Nat → String) (k rk : RSAKey) (kf : FSFile) (rest : List FSFile)
    (h : importKey kf.content = some rk) :
    scanCandidates importKey SHA256HEX k (kf :: rest)
      = if candidateMatches k rk
        then some ((get_sha256 kf.content).hexdigest SHA256HEX)
        else scanCandidates importKey SHA256HEX k rest := by
  simp only [scanCandidates, h, candidateMatches]
  by_cases h1 : (k.has_private && !rk.has_private
      && decide (k.publickey = rk.publickey)) = true
  · simp [h1]
  · by_cases h2 : (!k.has_private && rk.has_private
        && decide (k.publickey = rk.publickey)) = true
    · simp [h1, h2]
    · simp [h1, h2]

lemma get_sha256_hexdigest (SHA256HEX : List Nat → String) (content : List Nat) :
    (get_sha256 content).hexdigest SHA256HEX = SHA256HEX content := by
  unfold get_sha256 SHA256Acc.hexdigest
  rw [foldl_update, readChunks_join]
  simp [SHA256new]

lemma scanCandidates_none (importKey : List Nat → Option RSAKey)
    (SHA256HEX : List Nat → String) (k : RSAKey) :
    ∀ dir : List FSFile,
      (∀ c ∈ dir, ∀ ck, importKey c.content = some ck → complementary k ck = false) →
      scanCandidates importKey SHA256HEX k dir = none := by
  intro dir
  induction dir with
  | nil => intro _; rfl
  | cons c rest ih =>
    intro h
    have hrest : ∀ x ∈ rest, ∀ ck, importKey x.content = some ck →
        complementary k ck = false :=
      fun x hx => h x (List.mem_cons_of_mem c hx)
    cases hc : importKey c.content with
    | none => rw [scanCandidates_cons_skip _ _ _ _ _ hc, ih hrest]
    | some rk =>
      rw [scanCandidates_cons_key _ _ _ _ _ _ hc]
      rw [candidateMatches_eq_complementary, h c (List.mem_cons_self c rest) rk hc]
      simpa using ih hrest

lemma scanCandidates_unique_match (importKey : List Nat → Option RSAKey)
    (SHA256HEX : List Nat → String) (k pk : RSAKey) (pf : FSFile) :
    ∀ dir : List FSFile, pf ∈ dir → importKey pf.content = some pk →
      complementary k pk = true →
      (∀ c ∈ dir, c ≠ pf → ∀ ck, importKey c.content = some ck →
        complementary k ck = false) →
      scanCandidates importKey SHA256HEX k dir
        = some ((get_sha256 pf.content).hexdigest SHA256HEX) := by
  intro dir
  induction dir with
  | nil => intro h; cases h
  | cons c rest ih =>
    intro hmem hpk hcomp huniq
    by_cases hcpf : c = pf
    · subst hcpf
      rw [scanCandidates_cons_key _ _ _ _ _ _ hpk,
        candidateMatches_eq_complementary, hcomp]
      rfl
    · have hmem2 : pf ∈ rest := by
        cases hmem with
        | head => exact absurd rfl hcpf
        | tail _ h => exact h
      have huniq2 : ∀ x ∈ rest, x ≠ pf → ∀ ck, importKey x.content = some ck →
          complementary k ck = false :=
        fun x hx => huniq x (List.mem_cons_of_mem c hx)
      cases hc : importKey c.content with
      | none =>
        rw [scanCandidates_cons_skip _ _ _ _ _ hc]
        exact ih hmem2 hpk hcomp huniq2
      | some rk =>
        rw [scanCandidates_cons_key _ _ _ _ _ _ hc,
          candidateMatches_eq_complementary,
          huniq c (List.mem_cons_self c rest) hcpf rk hc]
        simpa using ih hmem2 hpk hcomp huniq2

lemma scanCandidates_some (importKey : List Nat → Option RSAKey)
    (SHA256HEX : List Nat → String) (k : RSAKey) :
    ∀ (dir : List FSFile) (d : String),
      scanCandidates importKey SHA256HEX k dir = some d →
      ∃ c ∈ dir, ∃ ck, importKey c.content = some ck
        ∧ candidateMatches k ck = true
        ∧ d = (get_sha256 c.content).hexdigest SHA256HEX := by
  intro dir
  induction dir with
  | nil => intro d h; cases h
  | cons c rest ih =>
    intro d h
    cases hc : importKey c.content with
    | none =>
      rw [scanCandidates_cons_skip _ _ _ _ _ hc] at h
      obtain ⟨x, hx, hrest⟩ := ih d h
      exact ⟨x, List.mem_cons_of_mem c hx, hrest⟩
    | some rk =>
      rw [scanCandidates_cons_key _ _ _ _ _ _ hc] at h
      by_cases hm : candidateMatches k rk = true
      · rw [if_pos hm] at h
        exact ⟨c, List.mem_cons_self c rest, rk, hc, hm,
          (Option.some.injEq _ _).mp h.symm⟩
      · rw [if_neg hm] at h
        obtain ⟨x, hx, hrest⟩ := ih d h
        exact ⟨x, List.mem_cons_of_mem c hx, hrest⟩

lemma scanCandidates_filter (importKey : List Nat → Option RSAKey)
    (SHA256HEX : List Nat → String) (k : RSAKey) :
    ∀ dir : List FSFile,
      scanCandidates importKey SHA256HEX k dir
        = scanCandidates importKey SHA256HEX k
            (dir.filter (fun c => (importKey c.content).isSome)) := by
  intro dir
  induction dir with
  | nil => rfl
  | cons c rest ih =>
    cases hc : importKey c.content with
    | none =>
      rw [scanCandidates_cons_skip _ _ _ _ _ hc, ih]
      congr 1
      simp [List.filter_cons, hc]
    | some rk =>
      have hfilter : (c :: rest).filter (fun c => (importKey c.content).isSome)
          = c :: rest.filter (fun c => (importKey c.content).isSome) := by
        simp [List.filter_cons, hc]
      rw [hfilter, scanCandidates_cons_key _ _ _ _ _ _ hc,
        scanCandidates_cons_key _ _ _ _ _ _ hc, ih]

/-! ### Lemmas about header field assignment -/

lemma lookupField_setField_same (fs : List (String × JValue)) (key : String)
    (v : JValue) : lookupField (setField fs key v) key = some v := by
  induction fs with
  | nil => simp [setField, lookupField]
  | cons p t ih =>
    by_cases hp : p.1 = key
    · simp [setField, hp, lookupField]
    · simp only [setField, hp, if_false, lookupField]
      exact ih

lemma lookupField_setField_other (fs : List (String × JValue)) (key key2 : String)
    (v : JValue) (hne : key2 ≠ key) :
    lookupField (setField fs key v) key2 = lookupField fs key2 := by
  have hne2 : key ≠ key2 := fun hk => hne hk.symm
  induction fs with
  | nil => simp [setField, lookupField, hne2]
  | cons p t ih =>
    by_cases hp : p.1 = key
    · have hp2 : p.1 ≠ key2 := hp ▸ hne2
      simp [setField, hp, lookupField, hne2, hp2]
    · by_cases hp2 : p.1 = key2
      · simp [setField, hp, lookupField, hp2, hne]
      · simp only [setField, hp, if_false, lookupField, hp2]
        exact ih

lemma lookupField_setField_isSome (fs : List (String × JValue)) (key key2 : String)
    (v : JValue) :
    (lookupField (setField fs key v) key2).isSome
      ↔ (key2 = key ∨ (lookupField fs key2).isSome) := by
  by_cases h : key2 = key
  · subst h
    simp [lookupField_setField_same]
  · rw [lookupField_setField_other fs key key2 v h]
    simp [h]

/-! ### Lemmas about decimal framing -/

lemma natToDecASCII_ge (n : Nat) : ∀ b ∈ natToDecASCII n, 48 ≤ b := by
  intro b hb
  unfold natToDecASCII at hb
  by_cases h : n = 0
  · simp [h] at hb
    omega
  · simp only [h, if_false, List.mem_map, List.mem_reverse] at hb
    obtain ⟨d, _, rfl⟩ := hb
    omega

lemma splitAtHash_append (pre post : List Nat) (h : ∀ b ∈ pre, b ≠ hashByte) :
    splitAtHash (pre ++ hashByte :: post) = some (pre, post) := by
  induction pre with
  | nil => simp [splitAtHash]
  | cons b t ih =>
    have hb : b ≠ hashByte := h b (List.mem_cons_self b t)
    simp only [List.cons_append, splitAtHash, hb, if_false]
    rw [List.append_eq, ih (fun x hx => h x (List.mem_cons_of_mem b hx))]
    rfl

lemma foldlDec_reverse (ds : List Nat) (a : Nat) :
    ds.reverse.foldl (fun a d => a * 10 + d) a
      = a * 10 ^ ds.length + Nat.ofDigits 10 ds := by
  induction ds generalizing a with
  | nil => simp
  | cons d t ih =>
    simp only [List.reverse_cons, List.foldl_append, List.foldl_cons, List.foldl_nil,
      ih, Nat.ofDigits_cons, List.length_cons, pow_succ]
    ring

lemma decode_natToDecASCII (n : Nat) :
    decodeDecASCII (natToDecASCII n) = n := by
  unfold decodeDecASCII natToDecASCII
  by_cases h : n = 0
  · simp [h]
  · simp only [h, if_false, ← List.map_reverse, List.foldl_map]
    have hstep : (fun (a d : Nat) => a * 10 + (d + 48 - 48)) = fun a d => a * 10 + d := by
      funext a d
      omega
    rw [hstep, foldlDec_reverse]
    simpa using Nat.ofDigits_digits 10 n

/-- C6: framing round-trip — for every header byte string `B`, framing it as
`<decimal length>#<B>` and parsing back by splitting at the first `#` and
reading exactly that many subsequent bytes reproduces `B` exactly, and the
decimal length prefix decodes to the actual number of framed payload bytes. -/
theorem frame_roundtrip (B : List Nat) :
    parseFrame (frameHeader B) = some B
      ∧ decodeDecASCII (natToDecASCII B.length) = B.length := by
  refine ⟨?_, decode_natToDecASCII B.length⟩
  unfold parseFrame frameHeader
  rw [splitAtHash_append _ _ (fun b hb => by
    have := natToDecASCII_ge B.length b hb
    unfold hashByte
    omega)]
  simp [decode_natToDecASCII]

/-- C7: the function `get_sha256` streams the file through the SHA-256 accumulator in
16 KiB chunks, and the result equals hashing the whole content in a single
`update`; hence the hex digest is a function of the file bytes alone
(deterministic and content-addressed), including for the empty file. -/
theorem get_sha256_eq_single_update (SHA256HEX : List Nat → String)
    (content : List Nat) :
    get_sha256 content = SHA256new.update content
      ∧ (get_sha256 content).hexdigest SHA256HEX = SHA256HEX content := by
  have h : get_sha256 content = SHA256new.update content := by
    unfold get_sha256
    rw [foldl_update, readChunks_join]
    rfl
  exact ⟨h, by rw [h]; rfl⟩

/-! ### Monad plumbing for `Except` -/

lemma except_bind_ok {α β : Type} (a : α) (f : α → Except String β) :
    (Except.ok a >>= f) = f a := rfl

lemma except_bind_error {α β : Type} (m : String) (f : α → Except String β) :
    ((Except.error m : Except String α) >>= f) = Except.error m := rfl

lemma except_pure {α : Type} (a : α) : (pure a : Except String α) = Except.ok a := rfl

lemma truthy_obj_of_ne_nil {fs : List (String × JValue)} (h : fs ≠ []) :
    (JValue.obj fs).truthy = true := by
  cases fs with
  | nil => exact absurd rfl h
  | cons p t => rfl

/-! ### Claim theorems -/

/-- C1: for a key pair stored as two files in the same directory (the partner
`pf` being the unique complementary candidate), the resolver called on either
key returns the hex SHA-256 digest of the raw bytes of the other file, and a
candidate matches exactly when it is complementary to the input key (exactly
one of the two has a private component and their public components are
bit-equal). -/
theorem resolver_returns_pair_complement_digest
    (importKey : List Nat → Option RSAKey) (SHA256HEX : List Nat → String)
    (dir : List FSFile) (keyContent : List Nat) (pf : FSFile) (k pk : RSAKey)
    (hk : importKey keyContent = some k)
    (hmem : pf ∈ dir)
    (hpk : importKey pf.content = some pk)
    (hcomp : complementary k pk = true)
    (huniq : ∀ c ∈ dir, c ≠ pf →
      ((importKey c.content).all fun ck => !(complementary k ck)) = true) :
    get_complementary_key_sha256_hash importKey SHA256HEX dir keyContent
      = Except.ok (some (SHA256HEX pf.content))
    ∧ ∀ a b : RSAKey, candidateMatches a b = complementary a b := by
  constructor
  · have huniq2 : ∀ c ∈ dir, c ≠ pf → ∀ ck, importKey c.content = some ck →
        complementary k ck = false := by
      intro c hc hcpf ck hck
      have := huniq c hc hcpf
      rw [hck] at this
      simpa using this
    unfold get_complementary_key_sha256_hash
    rw [hk]
    show Except.ok (scanCandidates importKey SHA256HEX k dir)
      = Except.ok (some (SHA256HEX pf.content))
    rw [scanCandidates_unique_match importKey SHA256HEX k pk pf dir hmem hpk
      hcomp huniq2, get_sha256_hexdigest]
  · exact candidateMatches_eq_complementary

/-- C1 witness: private key `[1]` with its public partner `[2]` and a junk
file in the same directory. -/
theorem resolver_returns_pair_complement_digest_witness :
    get_complementary_key_sha256_hash ikTest hexTest
        [⟨"junk", [9]⟩, ⟨"priv", [1]⟩, ⟨"pub", [2]⟩] [1]
      = Except.ok (some (hexTest [2]))
    ∧ ∀ a b : RSAKey, candidateMatches a b = complementary a b :=
  resolver_returns_pair_complement_digest ikTest hexTest
    [⟨"junk", [9]⟩, ⟨"priv", [1]⟩, ⟨"pub", [2]⟩] [1] ⟨"pub", [2]⟩
    ⟨true, 7⟩ ⟨false, 7⟩ rfl (by decide) rfl (by decide) (by decide)

/-- C2: when no candidate in the directory parses to a key complementary to
the (successfully loaded) input key, the resolver scans all candidates and
returns `None` without raising. -/
theorem resolver_no_complement_returns_none
    (importKey : List Nat → Option RSAKey) (SHA256HEX : List Nat → String)
    (dir : List FSFile) (keyContent : List Nat) (k : RSAKey)
    (hk : importKey keyContent = some k)
    (hnone : (dir.all fun c =>
      ((importKey c.content).all fun ck => !(complementary k ck))) = true) :
    get_complementary_key_sha256_hash importKey SHA256HEX dir keyContent
      = Except.ok none := by
  have h2 : ∀ c ∈ dir, ∀ ck, importKey c.content = some ck →
      complementary k ck = false := by
    intro c hc ck hck
    have := List.all_eq_true.mp hnone c hc
    rw [hck] at this
    simpa using this
  unfold get_complementary_key_sha256_hash
  rw [hk]
  show Except.ok (scanCandidates importKey SHA256HEX k dir) = Except.ok none
  rw [scanCandidates_none importKey SHA256HEX k dir h2]

/-- C2 witness: a directory holding the input private key itself, a junk file
and an unrelated public key, but no complement. -/
theorem resolver_no_complement_returns_none_witness :
    get_complementary_key_sha256_hash ikTest hexTest
        [⟨"a", [1]⟩, ⟨"j", [5]⟩, ⟨"o", [3]⟩] [1]
      = Except.ok none :=
  resolver_no_complement_returns_none ikTest hexTest
    [⟨"a", [1]⟩, ⟨"j", [5]⟩, ⟨"o", [3]⟩] [1] ⟨true, 7⟩ rfl (by decide)

/-- C3: an input key that cannot be read or parsed is fatal — the resolver
raises, the error propagates out of `build_header` (which therefore yields no
header), while a load failure of a scanned candidate is silently skipped. -/
theorem input_key_load_error_is_fatal
    (importKey : List Nat → Option RSAKey) (SHA256HEX : List Nat → String)
    (encDir sigDir : List FSFile) (encKeyContent sigKeyContent : List Nat)
    (fs : List (String × JValue))
    (hbad : importKey encKeyContent = none)
    (hne : fs ≠ []) :
    get_complementary_key_sha256_hash importKey SHA256HEX encDir encKeyContent
      = Except.error "Could not read in rsa key"
    ∧ build_header importKey SHA256HEX (Except.ok (JValue.obj fs))
        encDir encKeyContent sigDir sigKeyContent
      = Except.error "Could not read in rsa key"
    ∧ ∀ (c : FSFile) (rest : List FSFile) (k : RSAKey),
        importKey c.content = none →
        scanCandidates importKey SHA256HEX k (c :: rest)
          = scanCandidates importKey SHA256HEX k rest := by
  have hres : get_complementary_key_sha256_hash importKey SHA256HEX encDir
      encKeyContent = Except.error "Could not read in rsa key" := by
    unfold get_complementary_key_sha256_hash
    rw [hbad]
  refine ⟨hres, ?_, fun c rest k h => scanCandidates_cons_skip _ _ _ _ _ h⟩
  simp [build_header, except_bind_ok, truthy_obj_of_ne_nil hne, hres,
    except_bind_error]

/-- C3 witness: content `[99]` does not parse as a key. -/
theorem input_key_load_error_is_fatal_witness :
    get_complementary_key_sha256_hash ikTest hexTest [] [99]
      = Except.error "Could not read in rsa key"
    ∧ build_header ikTest hexTest
        (Except.ok (JValue.obj [("version", JValue.num 1)])) [] [99] [] [1]
      = Except.error "Could not read in rsa key"
    ∧ ∀ (c : FSFile) (rest : List FSFile) (k : RSAKey),
        ikTest c.content = none →
        scanCandidates ikTest hexTest k (c :: rest)
          = scanCandidates ikTest hexTest k rest :=
  input_key_load_error_is_fatal ikTest hexTest [] [] [99] [1]
    [("version", JValue.num 1)] rfl (List.cons_ne_nil _ _)

/-- C4: two-run noninterference over junk files — two directory listings that
agree on their parseable candidates (in order) make the resolver return the
same result, so adding files that fail to parse as keys never changes the
outcome and never makes it raise. -/
theorem resolver_junk_noninterference
    (importKey : List Nat → Option RSAKey) (SHA256HEX : List Nat → String)
    (keyContent : List Nat) (d1 d2 : List FSFile)
    (h : d1.filter (fun c => (importKey c.content).isSome)
       = d2.filter (fun c => (importKey c.content).isSome)) :
    get_complementary_key_sha256_hash importKey SHA256HEX d1 keyContent
      = get_complementary_key_sha256_hash importKey SHA256HEX d2 keyContent := by
  unfold get_complementary_key_sha256_hash
  cases hk : importKey keyContent with
  | none => rfl
  | some k =>
    show Except.ok (scanCandidates importKey SHA256HEX k d1)
      = Except.ok (scanCandidates importKey SHA256HEX k d2)
    rw [scanCandidates_filter importKey SHA256HEX k d1,
      scanCandidates_filter importKey SHA256HEX k d2, h]

/-- C4 witness: the same key pair with different junk files interleaved. -/
theorem resolver_junk_noninterference_witness :
    get_complementary_key_sha256_hash ikTest hexTest
        [⟨"p", [1]⟩, ⟨"x", [5]⟩, ⟨"q", [2]⟩] [1]
      = get_complementary_key_sha256_hash ikTest hexTest
        [⟨"p", [1]⟩, ⟨"q", [2]⟩, ⟨"y", [8]⟩] [1] :=
  resolver_junk_noninterference ikTest hexTest [1]
    [⟨"p", [1]⟩, ⟨"x", [5]⟩, ⟨"q", [2]⟩]
    [⟨"p", [1]⟩, ⟨"q", [2]⟩, ⟨"y", [8]⟩] (by decide)

/-- C5 counterexample: a template holding the syntactically valid, truthy,
non-object JSON `[1]` is not a missing/unreadable/invalid-JSON template, yet
`build_header` raises (`TypeError` on item assignment) instead of returning —
refuting the claim that only missing, unreadable or invalid JSON errors. -/
theorem build_header_truthy_nonobject_error :
    build_header ikTest hexTest (Except.ok (JValue.arr [JValue.num 1]))
        [] [1] [] [1]
      = Except.error "TypeError: object does not support item assignment" := rfl

/-- C5 (amended): a falsy parse (`null`, `{}`, `[]`, `0`, `false`, `""`)
makes `build_header` return no header rather than raise; a missing,
unreadable or syntactically invalid template is an error; and additionally a
template parsing to a truthy non-object value errors when the hash fields are
assigned. -/
theorem build_header_falsy_absence
    (importKey : List Nat → Option RSAKey) (SHA256HEX : List Nat → String)
    (t : Except String JValue) (encDir sigDir : List FSFile)
    (encKeyContent sigKeyContent : List Nat) :
    (∀ hv, t = Except.ok hv → hv.truthy = false →
      build_header importKey SHA256HEX t encDir encKeyContent sigDir
        sigKeyContent = Except.ok none)
    ∧ (∀ m, t = Except.error m →
      build_header importKey SHA256HEX t encDir encKeyContent sigDir
        sigKeyContent = Except.error m)
    ∧ (∀ hv, t = Except.ok hv → hv.truthy = true →
      (∀ fs, hv ≠ JValue.obj fs) →
      ∃ m, build_header importKey SHA256HEX t encDir encKeyContent sigDir
        sigKeyContent = Except.error m) := by
  refine ⟨?_, ?_, ?_⟩
  · intro hv ht htr
    subst ht
    simp [build_header, except_bind_ok, htr, except_pure]
  · intro m ht
    subst ht
    simp [build_header, except_bind_error]
  · intro hv ht htr hnonobj
    subst ht
    cases hr : get_complementary_key_sha256_hash importKey SHA256HEX encDir
        encKeyContent with
    | error m =>
      exact ⟨m, by simp [build_header, except_bind_ok, htr, hr,
        except_bind_error]⟩
    | ok e =>
      refine ⟨"TypeError: object does not support item assignment", ?_⟩
      cases hv with
      | obj fs => exact absurd rfl (hnonobj fs)
      | null =>
        simp [build_header, except_bind_ok, htr, hr, JValue.setItem,
          except_bind_error]
      | bool b =>
        simp [build_header, except_bind_ok, htr, hr, JValue.setItem,
          except_bind_error]
      | num n =>
        simp [build_header, except_bind_ok, htr, hr, JValue.setItem,
          except_bind_error]
      | str s =>
        simp [build_header, except_bind_ok, htr, hr, JValue.setItem,
          except_bind_error]
      | arr xs =>
        simp [build_header, except_bind_ok, htr, hr, JValue.setItem,
          except_bind_error]

/-- C5 witness: a template parsing to JSON `null` yields no header. -/
theorem build_header_falsy_absence_witness :
    build_header ikTest hexTest (Except.ok JValue.null) [] [] [] []
      = Except.ok none :=
  (build_header_falsy_absence ikTest hexTest (Except.ok JValue.null)
    [] [] [] []).1 JValue.null rfl rfl

/-- C8 counterexample: when the subprocess block raises after the framed
header temp file was created (e.g. `encrypt-data.py` cannot be launched), the
`os.remove` line is never reached, so the temp file is not deleted — refuting
cleanup on every exit path. -/
theorem tmpfile_not_removed_on_exception :
    MainOp.removeTmp ∉
      mainTailTrace (EncOutcome.raises "OSError: cannot launch encryptor") := by
  decide

/-- C8 (amended): the framed-header temp file is deleted whenever the Payload
Encryptor completes — success or nonzero exit alike, with its return code
propagated as the exit status — but not when an exception is raised after the
temp file is created. -/
theorem tmpfile_removed_on_completion (rc : Int) (out : Option String)
    (m : String) :
    MainOp.removeTmp ∈ mainTailTrace (EncOutcome.completes rc out)
    ∧ MainOp.sysExit rc ∈ mainTailTrace (EncOutcome.completes rc out)
    ∧ MainOp.removeTmp ∉ mainTailTrace (EncOutcome.raises m) := by
  refine ⟨?_, ?_, ?_⟩ <;> simp [mainTailTrace]

/-- C9: on a non-empty JSON object template, `build_header` returns the
template with exactly the two hash fields stamped: both are set (overwriting
any existing binding) to the resolver results, every other key keeps its
template value, and no other key is added or removed. -/
theorem build_header_frame_effect
    (importKey : List Nat → Option RSAKey) (SHA256HEX : List Nat → String)
    (fs : List (String × JValue)) (encDir sigDir : List FSFile)
    (encKeyContent sigKeyContent : List Nat) (e s : Option String)
    (hne : fs ≠ [])
    (he : get_complementary_key_sha256_hash importKey SHA256HEX encDir
      encKeyContent = Except.ok e)
    (hs : get_complementary_key_sha256_hash importKey SHA256HEX sigDir
      sigKeyContent = Except.ok s) :
    ∃ fs2,
      build_header importKey SHA256HEX (Except.ok (JValue.obj fs))
        encDir encKeyContent sigDir sigKeyContent
        = Except.ok (some (JValue.obj fs2))
      ∧ lookupField fs2 "encryptionKeyHash" = some (optDigestToJValue e)
      ∧ lookupField fs2 "signatureKeyHash" = some (optDigestToJValue s)
      ∧ (∀ key, key ≠ "encryptionKeyHash" → key ≠ "signatureKeyHash" →
          lookupField fs2 key = lookupField fs key)
      ∧ (∀ key, (lookupField fs2 key).isSome
          ↔ (key = "encryptionKeyHash" ∨ key = "signatureKeyHash"
              ∨ (lookupField fs key).isSome)) := by
  refine ⟨setField (setField fs "encryptionKeyHash" (optDigestToJValue e))
    "signatureKeyHash" (optDigestToJValue s), ?_, ?_, ?_, ?_, ?_⟩
  · simp [build_header, except_bind_ok, truthy_obj_of_ne_nil hne, he, hs,
      JValue.setItem, except_pure]
  · rw [lookupField_setField_other _ _ _ _ (by decide),
      lookupField_setField_same]
  · rw [lookupField_setField_same]
  · intro key h1 h2
    rw [lookupField_setField_other _ _ _ _ h2,
      lookupField_setField_other _ _ _ _ h1]
  · intro key
    rw [Option.isSome_iff_exists]
    rw [← Option.isSome_iff_exists]
    rw [lookupField_setField_isSome, lookupField_setField_isSome]
    tauto

/-- C9 witness: template `{"version": 1}` with both resolvers returning
`None`. -/
theorem build_header_frame_effect_witness :
    ∃ fs2,
      build_header ikTest hexTest
        (Except.ok (JValue.obj [("version", JValue.num 1)])) [] [1] [] [1]
        = Except.ok (some (JValue.obj fs2))
      ∧ lookupField fs2 "encryptionKeyHash" = some (optDigestToJValue none)
      ∧ lookupField fs2 "signatureKeyHash" = some (optDigestToJValue none)
      ∧ (∀ key, key ≠ "encryptionKeyHash" → key ≠ "signatureKeyHash" →
          lookupField fs2 key = lookupField [("version", JValue.num 1)] key)
      ∧ (∀ key, (lookupField fs2 key).isSome
          ↔ (key = "encryptionKeyHash" ∨ key = "signatureKeyHash"
              ∨ (lookupField [("version", JValue.num 1)] key).isSome)) :=
  build_header_frame_effect ikTest hexTest [("version", JValue.num 1)]
    [] [] [1] [1] none none (List.cons_ne_nil _ _) rfl rfl

/-- C10: the resolver never returns the digest of the input key file itself —
any digest it returns is the digest of a directory candidate whose bytes
differ from the input key file's bytes, because a candidate with the same
private-component status (in particular the input file itself) cannot satisfy
the match predicate. -/
theorem resolver_never_self_match
    (importKey : List Nat → Option RSAKey) (SHA256HEX : List Nat → String)
    (dir : List FSFile) (keyContent : List Nat) (d : String)
    (h : get_complementary_key_sha256_hash importKey SHA256HEX dir keyContent
      = Except.ok (some d)) :
    ∃ c ∈ dir, c.content ≠ keyContent ∧ d = SHA256HEX c.content := by
  unfold get_complementary_key_sha256_hash at h
  cases hk : importKey keyContent with
  | none => rw [hk] at h; cases h
  | some k =>
    rw [hk] at h
    have hscan : scanCandidates importKey SHA256HEX k dir = some d :=
      Except.ok.inj h
    obtain ⟨c, hc, ck, hck, hm, hd⟩ :=
      scanCandidates_some importKey SHA256HEX k dir d hscan
    refine ⟨c, hc, ?_, by rw [hd, get_sha256_hexdigest]⟩
    intro hcc
    rw [hcc, hk] at hck
    have hckk : ck = k := (Option.some.inj hck).symm
    subst hckk
    rw [candidateMatches_eq_complementary] at hm
    simp [complementary] at hm

/-- C10 witness: the input private key `[1]` is itself listed in the
directory; the digest returned is that of the partner file `[2]`. -/
theorem resolver_never_self_match_witness :
    ∃ c ∈ ([⟨"priv", [1]⟩, ⟨"pub", [2]⟩] : List FSFile),
      c.content ≠ [1] ∧ hexTest [2] = hexTest c.content :=
  resolver_never_self_match ikTest hexTest [⟨"priv", [1]⟩, ⟨"pub", [2]⟩] [1]
    (hexTest [2]) rfl

end PackageOmg
